import Mathlib

/-!
Verification of the RoboTools repository (robotools/roboframes.py and
robotools/file_utils.py) against its natural-language specification.

The Python code is shallowly embedded: Python strings are `List Char`,
Python `None`-or-string results are `Option (List Char)`, numeric pose data
is `ℚ`, and the dynamic attribute dictionary of a Python object is an
association list from attribute names to a `PyValue` variant type.
-/

/-! ## Models of the Python string and path primitives used by the code -/

/-- Model of Python `str.lower()` (the code only ever lowercases ASCII
attribute names). -/
def pyLower (s : List Char) : List Char :=
  s.map Char.toLower

/-- Model of Python `s.split(c, 1)`: split at the first occurrence of the
one-character separator `c`.  Returns `[s]` when `c` does not occur, and
the two pieces (separator removed) when it does. -/
def pySplit1 (c : Char) (s : List Char) : List (List Char) :=
  if c ∈ s then
    [s.takeWhile (fun x => x ≠ c), (s.dropWhile (fun x => x ≠ c)).tail]
  else [s]

/-- The part of `s` strictly after the last occurrence of `c`
(meaningful when `c ∈ s`). -/
def afterLast (c : Char) (s : List Char) : List Char :=
  (s.reverse.takeWhile (fun x => x ≠ c)).reverse

/-- The part of `s` strictly before the last occurrence of `c`
(meaningful when `c ∈ s`). -/
def beforeLast (c : Char) (s : List Char) : List Char :=
  ((s.reverse.dropWhile (fun x => x ≠ c)).tail).reverse

/-- Model of Python `s.rsplit(c, 1)`: split at the last occurrence of the
one-character separator `c`. -/
def pyRSplit1 (c : Char) (s : List Char) : List (List Char) :=
  if c ∈ s then [beforeLast c s, afterLast c s] else [s]

/-- Model of `pathlib.PurePosixPath(path).name`: the last path segment, after
dropping empty segments and `.` segments (pathlib normalizes those away);
the empty string when no segment remains (e.g. for `/` or `.`). -/
def pathName (path : List Char) : List Char :=
  let segs := (path.splitOn '/').filter (fun s => decide (s ≠ [] ∧ s ≠ ['.']))
  segs.getLast?.getD []

/-- Model of `pathlib.PurePath.stem`: the name up to its last `.`, except
that a leading dot (hidden file) or a trailing dot does not start a suffix,
mirroring pathlib's `0 < i < len(name) - 1` index condition on `rfind('.')`. -/
def pyStem (name : List Char) : List Char :=
  if '.' ∈ name then
    if beforeLast '.' name = [] ∨ afterLast '.' name = [] then name
    else beforeLast '.' name
  else name

/-! ## file_utils.py -/

/-- `supported_image_types` from file_utils.py. -/
def supported_image_types : List (List Char) :=
  (["bmp", "pbm", "pgm", "ppm", "jpeg", "jpg", "jpe", "jp2", "tiff", "tif", "png"]).map
    String.toList

/-- `supported_pointcloud_types` from file_utils.py. -/
def supported_pointcloud_types : List (List Char) :=
  (["ply", "pcd"]).map String.toList

/-- `supported_csv_types` from file_utils.py. -/
def supported_csv_types : List (List Char) :=
  (["csv"]).map String.toList

/-- The filename-level part of `extension_from_filepath`:
`if len(name.rsplit('.',1)) == 2: return name.rsplit('.',1)[1]; return None`. -/
def extOfName (name : List Char) : Option (List Char) :=
  if (pyRSplit1 '.' name).length = 2 then some ((pyRSplit1 '.' name).getD 1 [])
  else Option.none

/-- `extension_from_filepath` from file_utils.py: applies the rsplit rule to
`pathlib.Path(filepath).name`. -/
def extension_from_filepath (filepath : List Char) : Option (List Char) :=
  extOfName (pathName filepath)

/-- Modelled from the spec: the `FrameType` enumeration of
`robotools/defines.py`, which is not under src/ (its members `IMAGE`,
`POINTCLOUD`, `CSVDATA`, `UNKNOWN` are named by file_utils.py and the tests). -/
inductive FrameType where
  | IMAGE
  | POINTCLOUD
  | CSVDATA
  | UNKNOWN
deriving DecidableEq

/-- Model of the Python test `x in list_of_strings` where `x` may be `None`
(`None` is never an element of a list of strings). -/
def pyIn (x : Option (List Char)) (l : List (List Char)) : Bool :=
  match x with
  | some e => decide (e ∈ l)
  | Option.none => false

/-- `frametype_from_extension` from file_utils.py. -/
def frametype_from_extension (ext : Option (List Char)) : FrameType :=
  if pyIn ext supported_image_types then FrameType.IMAGE
  else if pyIn ext supported_pointcloud_types then FrameType.POINTCLOUD
  else if pyIn ext supported_csv_types then FrameType.CSVDATA
  else FrameType.UNKNOWN

/-- `frametype_from_filepath` from file_utils.py. -/
def frametype_from_filepath (filepath : List Char) : FrameType :=
  frametype_from_extension (extension_from_filepath filepath)

/-! ## The rigid-pose algebra collaborator (spatialmath)

roboframes.py calls `sm.SE3`, `sm.base.q2r` and `sm.base.r2q` of the external
spatialmath library.  The spec treats this collaborator as a black box
supplying a homogeneous transform with rotation-matrix ↔ quaternion
conversion; only the translation column and the 3×3 rotation block are ever
read or written by the code, so an `SE3` value is modelled by those parts,
over `ℚ`. -/

/-- A quaternion in scalar-first order `(w, x, y, z)`, as used by
`sm.base.q2r` / `sm.base.r2q`. -/
structure Quat where
  w : ℚ
  x : ℚ
  y : ℚ
  z : ℚ
deriving DecidableEq

/-- A 3-vector (the translation column of a homogeneous transform). -/
structure Vec3 where
  x : ℚ
  y : ℚ
  z : ℚ
deriving DecidableEq

/-- A 3×3 rotation block, entry `aij` at row `i`, column `j`. -/
structure Mat3 where
  a00 : ℚ
  a01 : ℚ
  a02 : ℚ
  a10 : ℚ
  a11 : ℚ
  a12 : ℚ
  a20 : ℚ
  a21 : ℚ
  a22 : ℚ
deriving DecidableEq

/-- The identity rotation block. -/
def mat3Id : Mat3 :=
  ⟨1, 0, 0, 0, 1, 0, 0, 0, 1⟩

/-- The parts of an `sm.SE3` transform the code touches: the rotation block
`A[:3,:3]` and the translation column `A[:3,3]`. -/
structure SE3 where
  rot : Mat3
  trans : Vec3
deriving DecidableEq

/-- `sm.SE3()`: the identity transform. -/
def se3Id : SE3 :=
  ⟨mat3Id, ⟨0, 0, 0⟩⟩

/-- `sm.SE3([x, y, z])`: a pure translation. -/
def se3FromTrans (x y z : ℚ) : SE3 :=
  ⟨mat3Id, ⟨x, y, z⟩⟩

/-- Model of `sm.base.q2r` for a unit quaternion `(w, x, y, z)`: the standard
quaternion-to-rotation-matrix formula (spec §4.5 / §6: rotation-matrix ↔
quaternion conversion of the pose-algebra collaborator). -/
def q2r (q : Quat) : Mat3 :=
  ⟨1 - 2 * (q.y ^ 2 + q.z ^ 2), 2 * (q.x * q.y - q.z * q.w), 2 * (q.x * q.z + q.y * q.w),
   2 * (q.x * q.y + q.z * q.w), 1 - 2 * (q.x ^ 2 + q.z ^ 2), 2 * (q.y * q.z - q.x * q.w),
   2 * (q.x * q.z - q.y * q.w), 2 * (q.y * q.z + q.x * q.w), 1 - 2 * (q.x ^ 2 + q.y ^ 2)⟩

/-- Rational square root used by the `r2q` model: exact on rationals whose
numerator and denominator are perfect squares, which covers every value that
arises from the claims' inputs (the identity rotation and axis flips, where
the radicand is `4`). -/
def ratSqrt (q : ℚ) : ℚ :=
  (Nat.sqrt q.num.toNat : ℚ) / (Nat.sqrt q.den : ℚ)

/-- Model of `sm.base.r2q` (scalar-first output): the standard Shepperd-style
rotation-matrix-to-quaternion conversion, branching on the trace and the
largest diagonal entry. -/
def r2q (m : Mat3) : Quat :=
  let tr := m.a00 + m.a11 + m.a22
  if 0 < tr then
    let s := 2 * ratSqrt (tr + 1)
    ⟨s / 4, (m.a21 - m.a12) / s, (m.a02 - m.a20) / s, (m.a10 - m.a01) / s⟩
  else if m.a11 ≤ m.a00 ∧ m.a22 ≤ m.a00 then
    let s := 2 * ratSqrt (1 + m.a00 - m.a11 - m.a22)
    ⟨(m.a21 - m.a12) / s, s / 4, (m.a01 + m.a10) / s, (m.a02 + m.a20) / s⟩
  else if m.a22 ≤ m.a11 then
    let s := 2 * ratSqrt (1 + m.a11 - m.a00 - m.a22)
    ⟨(m.a02 - m.a20) / s, (m.a01 + m.a10) / s, s / 4, (m.a12 + m.a21) / s⟩
  else
    let s := 2 * ratSqrt (1 + m.a22 - m.a00 - m.a11)
    ⟨(m.a10 - m.a01) / s, (m.a02 + m.a20) / s, (m.a12 + m.a21) / s, s / 4⟩

/-! ## roboframes.py: the RoboFrame class

A Python object is modelled by its instance dictionary: an association list
from attribute names to values, updated in place by `setattr`.  The value
ruled on by the claims is one of `None`, an int, a float, a string, or an
`sm.SE3` transform, captured by `PyValue`. -/

/-- The Python values stored on frames by the code and claims under study. -/
inductive PyValue where
  | none
  | int (n : Int)
  | float (q : ℚ)
  | str (s : List Char)
  | se3 (T : SE3)
deriving DecidableEq

/-- The exception relevant to the claims: `ValueError`. -/
inductive PyError where
  | valueError
deriving DecidableEq

/-- `setattr` on an instance dictionary: overwrite the binding in place if the
name is already bound, append it otherwise (Python dict update semantics). -/
def updateAssoc : List (List Char × PyValue) → List Char → PyValue →
    List (List Char × PyValue)
  | [], n, v => [(n, v)]
  | (k, w) :: rest, n, v =>
      if k = n then (n, v) :: rest else (k, w) :: updateAssoc rest n v

/-- Attribute lookup in an instance dictionary. -/
def lookupAssoc : List (List Char × PyValue) → List Char → Option PyValue
  | [], _ => Option.none
  | (k, w) :: rest, n => if k = n then some w else lookupAssoc rest n

/-- The `RoboFrame` object state: its instance dictionary. -/
structure RoboFrame where
  dict : List (List Char × PyValue)
deriving DecidableEq

/-- `RoboFrame.__init__(frame_id, timestamp=None, pose=None)`: stores
`int(frame_id)`, `timestamp` and `pose` as instance attributes. -/
def RoboFrame.init (frame_id : Int) (timestamp : PyValue) (pose : PyValue) :
    RoboFrame :=
  ⟨[("frame_id".toList, PyValue.int frame_id),
    ("timestamp".toList, timestamp),
    ("pose".toList, pose)]⟩

/-- `setattr(self, n, v)`. -/
def RoboFrame.setattr (f : RoboFrame) (n : List Char) (v : PyValue) : RoboFrame :=
  ⟨updateAssoc f.dict n v⟩

/-- The attributes provided by the `RoboFrame` class object itself (its
methods); `hasattr` finds these even when the instance dictionary does not
bind the name.  Attributes inherited from Python's base `object` are outside
the source under study and are not modelled. -/
def roboFrameClassAttrs : List (List Char) :=
  (["__init__", "add_data", "has_field", "get_pose_data", "set_pose"]).map
    String.toList

/-- `hasattr(self, n)`: true when the name is bound in the instance
dictionary or is a class attribute. -/
def RoboFrame.hasattr (f : RoboFrame) (n : List Char) : Bool :=
  (lookupAssoc f.dict n).isSome || decide (n ∈ roboFrameClassAttrs)

/-- `RoboFrame.has_field(field)`: `hasattr(self, field.lower())`. -/
def RoboFrame.has_field (f : RoboFrame) (field : List Char) : Bool :=
  f.hasattr (pyLower field)

/-- The `field` argument of `add_data`: either a single string, or a list or
tuple of strings (a list is converted to a tuple by the code; both normalize
identically, so they share the `many` constructor). -/
inductive FieldArg where
  | one (s : List Char)
  | many (ss : List (List Char))

/-- The `value` argument of `add_data`: either a list or tuple of values, or
a scalar.  A plain string value is wrapped into a one-element tuple by the
code, exactly like any other non-list non-tuple value, so it is a `scalar`. -/
inductive ValueArg where
  | many (vs : List PyValue)
  | scalar (v : PyValue)

/-- The normalization of `field` performed by `add_data`. -/
def normFields : FieldArg → List (List Char)
  | FieldArg.one s => [s]
  | FieldArg.many ss => ss

/-- The normalization of `value` performed by `add_data`. -/
def normValues : ValueArg → List PyValue
  | ValueArg.many vs => vs
  | ValueArg.scalar v => [v]

/-- `RoboFrame.add_data(field, value)`: normalize both arguments, raise
`ValueError` when the arities differ, otherwise `setattr` each lowercased
name to its value. -/
def RoboFrame.add_data (f : RoboFrame) (field : FieldArg) (value : ValueArg) :
    Except PyError RoboFrame :=
  let fs := normFields field
  let vs := normValues value
  if fs.length ≠ vs.length then Except.error PyError.valueError
  else Except.ok ((fs.zip vs).foldl (fun g p => g.setattr (pyLower p.1) p.2) f)

/-- The keyword arguments of `set_pose`, restricted to the seven component
names the code recognizes (unrecognized keyword names are never read by the
code and are not modelled). -/
structure PoseKwargs where
  pos_x : Option ℚ
  pos_y : Option ℚ
  pos_z : Option ℚ
  quat_w : Option ℚ
  quat_x : Option ℚ
  quat_y : Option ℚ
  quat_z : Option ℚ
deriving DecidableEq

/-- `kwargs.get(name)` for the seven recognized component names. -/
def PoseKwargs.get (k : PoseKwargs) (n : List Char) : Option ℚ :=
  if n = "pos_x".toList then k.pos_x
  else if n = "pos_y".toList then k.pos_y
  else if n = "pos_z".toList then k.pos_z
  else if n = "quat_w".toList then k.quat_w
  else if n = "quat_x".toList then k.quat_x
  else if n = "quat_y".toList then k.quat_y
  else if n = "quat_z".toList then k.quat_z
  else Option.none

/-- `name in kwargs` for the seven recognized component names. -/
def PoseKwargs.mem (k : PoseKwargs) (n : List Char) : Bool :=
  (k.get n).isSome

/-- Modelled from the spec: `PoseComponents.POS_ONLY` of
`robotools/defines.py`, which is not under src/ — the three translation
component names (spec §4.5). -/
def PoseComponents.POS_ONLY : List (List Char) :=
  (["pos_x", "pos_y", "pos_z"]).map String.toList

/-- Modelled from the spec: `PoseComponents.ROT_ONLY` of
`robotools/defines.py`, which is not under src/ — the four quaternion
component names (spec §4.5). -/
def PoseComponents.ROT_ONLY : List (List Char) :=
  (["quat_w", "quat_x", "quat_y", "quat_z"]).map String.toList

/-- Modelled from the spec: `PoseComponents.FULL` of `robotools/defines.py`,
which is not under src/ — all seven component names (spec §4.5). -/
def PoseComponents.FULL : List (List Char) :=
  PoseComponents.POS_ONLY ++ PoseComponents.ROT_ONLY

/-- `RoboFrame.set_pose(**kwargs)`: three guarded branches, each requiring
presence of a component list; returns the updated frame and the boolean
result.  Inside a branch `kwargs.get` never yields `None`, so the model
totalizes the read with `getD 0`. -/
def RoboFrame.set_pose (f : RoboFrame) (k : PoseKwargs) : RoboFrame × Bool :=
  if PoseComponents.FULL.all (fun x => k.mem x) then
    let T : SE3 :=
      ⟨q2r ⟨k.quat_w.getD 0, k.quat_x.getD 0, k.quat_y.getD 0, k.quat_z.getD 0⟩,
       ⟨k.pos_x.getD 0, k.pos_y.getD 0, k.pos_z.getD 0⟩⟩
    (f.setattr "pose".toList (PyValue.se3 T), true)
  else if PoseComponents.POS_ONLY.all (fun x => k.mem x) then
    (f.setattr "pose".toList
      (PyValue.se3 (se3FromTrans (k.pos_x.getD 0) (k.pos_y.getD 0) (k.pos_z.getD 0))),
     true)
  else if PoseComponents.ROT_ONLY.all (fun x => k.mem x) then
    let T : SE3 :=
      ⟨q2r ⟨k.quat_w.getD 0, k.quat_x.getD 0, k.quat_y.getD 0, k.quat_z.getD 0⟩,
       se3Id.trans⟩
    (f.setattr "pose".toList (PyValue.se3 T), true)
  else (f, false)

/-- The dictionary returned by `get_pose_data`, which always has exactly the
seven component keys. -/
structure PoseData where
  pos_x : ℚ
  pos_y : ℚ
  pos_z : ℚ
  quat_w : ℚ
  quat_x : ℚ
  quat_y : ℚ
  quat_z : ℚ
deriving DecidableEq

/-- `RoboFrame.get_pose_data()`: `None` when the pose attribute is `None` or
not an `sm.SE3` value; otherwise the translation column and `r2q` of the
rotation block. -/
def RoboFrame.get_pose_data (f : RoboFrame) : Option PoseData :=
  match lookupAssoc f.dict "pose".toList with
  | some (PyValue.se3 T) =>
      let q := r2q T.rot
      some ⟨T.trans.x, T.trans.y, T.trans.z, q.w, q.x, q.y, q.z⟩
  | _ => Option.none

/-! ## roboframes.py: the RoboFrameFile class -/

/-- The `RoboFrameFile` object state: the base `RoboFrame` state plus the
(immutable once set) `filepath` attribute. -/
structure RoboFrameFile where
  base : RoboFrame
  filepath : List Char

/-- `RoboFrameFile.__init__(frame_id, filepath)`: `super().__init__(frame_id)`
then `self.filepath = pathlib.Path(filepath)`. -/
def RoboFrameFile.init (frame_id : Int) (filepath : List Char) : RoboFrameFile :=
  ⟨RoboFrame.init frame_id PyValue.none PyValue.none, filepath⟩

/-- The `filename` property: `self.filepath.name`. -/
def RoboFrameFile.filename (f : RoboFrameFile) : List Char :=
  pathName f.filepath

/-- The `filestem` property: `self.filepath.stem`. -/
def RoboFrameFile.filestem (f : RoboFrameFile) : List Char :=
  pyStem (pathName f.filepath)

/-- The `extension` property: `extension_from_filepath(self.filepath)`. -/
def RoboFrameFile.extension (f : RoboFrameFile) : Option (List Char) :=
  extension_from_filepath f.filepath

/-- The filename-level rule of the `prefix` property of `RoboFrameFile`
(the Lean name differs because `prefix` is a Lean keyword):
`if len(name.split('_',1)) == 2: return name.split('_',1)[0]; return None`. -/
def pfxOfName (name : List Char) : Option (List Char) :=
  if (pySplit1 '_' name).length = 2 then some ((pySplit1 '_' name).getD 0 [])
  else Option.none

/-- The `prefix` property of `RoboFrameFile`, applied to `self.filepath.name`. -/
def RoboFrameFile.pfx (f : RoboFrameFile) : Option (List Char) :=
  pfxOfName (pathName f.filepath)

/-- The filename-level rule of the `user_notes` property:
`None` when `len(name.split('_')) <= 2`, otherwise
`name.split('_',1)[1].rsplit('_',1)[0]`. -/
def userNotesOfName (name : List Char) : Option (List Char) :=
  if (name.splitOn '_').length ≤ 2 then Option.none
  else some ((pyRSplit1 '_' ((pySplit1 '_' name).getD 1 [])).getD 0 [])

/-- The `user_notes` property of `RoboFrameFile`, applied to
`self.filepath.name`. -/
def RoboFrameFile.user_notes (f : RoboFrameFile) : Option (List Char) :=
  userNotesOfName (pathName f.filepath)

/-! ## Operation sequences over a frame (for the immutability claim) -/

/-- One public operation on a `RoboFrame`, as enumerated by claim C7.  `read`
(of the file-backed subclasses) delegates to the external codec and performs
no attribute mutation, so its metadata effect is the identity. -/
inductive FrameOp where
  | addData (field : FieldArg) (value : ValueArg)
  | hasField (s : List Char)
  | setPose (k : PoseKwargs)
  | getPoseData
  | read

/-- The effect of one operation on the frame state (a raised `ValueError`
leaves the frame unmodified, since `add_data` validates before assigning). -/
def applyOp (f : RoboFrame) (op : FrameOp) : RoboFrame :=
  match op with
  | FrameOp.addData fld v =>
      match f.add_data fld v with
      | Except.ok g => g
      | Except.error _ => f
  | FrameOp.hasField _ => f
  | FrameOp.setPose k => (f.set_pose k).1
  | FrameOp.getPoseData => f
  | FrameOp.read => f

/-- An operation never assigns the attribute name `frame_id`: true for every
operation except an `add_data` call one of whose normalized field names
lowercases to `frame_id`. -/
def avoidsFrameId : FrameOp → Bool
  | FrameOp.addData fld _ =>
      decide ("frame_id".toList ∉ (normFields fld).map pyLower)
  | _ => true

/-! ## Spec-side predicates about set_pose inputs -/

/-- All three translation components are present. -/
def hasAllPos (k : PoseKwargs) : Bool :=
  k.pos_x.isSome && k.pos_y.isSome && k.pos_z.isSome

/-- All four quaternion components are present. -/
def hasAllRot (k : PoseKwargs) : Bool :=
  k.quat_w.isSome && k.quat_x.isSome && k.quat_y.isSome && k.quat_z.isSome

/-- The input is exactly the full seven-component set. -/
def exactlyFull (k : PoseKwargs) : Bool :=
  hasAllPos k && hasAllRot k

/-- The input is exactly the three translation components and nothing else. -/
def exactlyPosOnly (k : PoseKwargs) : Bool :=
  hasAllPos k && k.quat_w.isNone && k.quat_x.isNone && k.quat_y.isNone &&
    k.quat_z.isNone

/-- The input is exactly the four quaternion components and nothing else. -/
def exactlyRotOnly (k : PoseKwargs) : Bool :=
  hasAllRot k && k.pos_x.isNone && k.pos_y.isNone && k.pos_z.isNone

/-- The `set_pose` input used as counterexample to claim C3: the three
translation components plus a partial quaternion (`quat_w` only). -/
def kwargsCE : PoseKwargs :=
  ⟨some 1, some 2, some 3, some 0, Option.none, Option.none, Option.none⟩

/-- The full seven-component `set_pose` input of claim C4. -/
def kwargsFull : PoseKwargs :=
  ⟨some 1, some 2, some 3, some 0, some 1, some 0, some 0⟩

/-- The translation-only `set_pose` input of claim C4. -/
def kwargsPos : PoseKwargs :=
  ⟨some 1, some 2, some 3, Option.none, Option.none, Option.none, Option.none⟩

/-- The empty `set_pose` input (no components given). -/
def kwargsEmpty : PoseKwargs :=
  ⟨Option.none, Option.none, Option.none, Option.none, Option.none, Option.none,
   Option.none⟩

/-! ## Helper lemmas about the string primitives -/

theorem takeWhile_ne_append {c : Char} {xs : List Char} (rest : List Char)
    (h : c ∉ xs) :
    (xs ++ c :: rest).takeWhile (fun x => x ≠ c) = xs := by
  induction xs with
  | nil => simp
  | cons a t ih =>
    simp only [List.mem_cons, not_or] at h
    have ha : a ≠ c := fun e => h.1 e.symm
    rw [List.cons_append, List.takeWhile_cons_of_pos (by simp [ha]), ih h.2]

theorem dropWhile_ne_append {c : Char} {xs : List Char} (rest : List Char)
    (h : c ∉ xs) :
    (xs ++ c :: rest).dropWhile (fun x => x ≠ c) = c :: rest := by
  induction xs with
  | nil => simp
  | cons a t ih =>
    simp only [List.mem_cons, not_or] at h
    have ha : a ≠ c := fun e => h.1 e.symm
    rw [List.cons_append, List.dropWhile_cons_of_pos (by simp [ha]), ih h.2]

theorem pySplit1_not_mem {c : Char} {s : List Char} (h : c ∉ s) :
    pySplit1 c s = [s] := by
  simp [pySplit1, h]

theorem pySplit1_decomp {c : Char} {xs : List Char} (rest : List Char)
    (h : c ∉ xs) :
    pySplit1 c (xs ++ c :: rest) = [xs, rest] := by
  have hmem : c ∈ xs ++ c :: rest := List.mem_append_right _ (List.mem_cons_self _ _)
  simp only [pySplit1, if_pos hmem, takeWhile_ne_append rest h,
    dropWhile_ne_append rest h, List.tail_cons]

theorem afterLast_decomp {c : Char} {rest : List Char} (xs : List Char)
    (h : c ∉ rest) :
    afterLast c (xs ++ c :: rest) = rest := by
  have hrev : (xs ++ c :: rest).reverse = rest.reverse ++ c :: xs.reverse := by
    simp
  have hr : c ∉ rest.reverse := by simpa using h
  simp only [afterLast, hrev]
  rw [takeWhile_ne_append xs.reverse hr, List.reverse_reverse]

theorem beforeLast_decomp {c : Char} {rest : List Char} (xs : List Char)
    (h : c ∉ rest) :
    beforeLast c (xs ++ c :: rest) = xs := by
  have hrev : (xs ++ c :: rest).reverse = rest.reverse ++ c :: xs.reverse := by
    simp
  have hr : c ∉ rest.reverse := by simpa using h
  simp only [beforeLast, hrev]
  rw [dropWhile_ne_append xs.reverse hr, List.tail_cons, List.reverse_reverse]

theorem pyRSplit1_not_mem {c : Char} {s : List Char} (h : c ∉ s) :
    pyRSplit1 c s = [s] := by
  simp [pyRSplit1, h]

theorem pyRSplit1_decomp {c : Char} {rest : List Char} (xs : List Char)
    (h : c ∉ rest) :
    pyRSplit1 c (xs ++ c :: rest) = [xs, rest] := by
  have hmem : c ∈ xs ++ c :: rest := List.mem_append_right _ (List.mem_cons_self _ _)
  simp [pyRSplit1, hmem, beforeLast_decomp xs h, afterLast_decomp xs h]

theorem splitOn_not_mem {c : Char} {s : List Char} (h : c ∉ s) :
    s.splitOn c = [s] := by
  apply List.splitOnP_eq_single
  intro x hx
  simp only [beq_iff_eq]
  exact fun e => h (e ▸ hx)

theorem splitOn_append_cons {c : Char} {xs : List Char} (rest : List Char)
    (h : c ∉ xs) :
    (xs ++ c :: rest).splitOn c = xs :: rest.splitOn c := by
  apply List.splitOnP_first
  · intro x hx
    simp only [beq_iff_eq]
    exact fun e => h (e ▸ hx)
  · simp

theorem splitOnP_parts {α : Type} (p : α → Bool) (s : List α) :
    ∀ l ∈ s.splitOnP p, ∀ x ∈ l, ¬ p x := by
  induction s with
  | nil =>
    intro l hl
    simp only [List.splitOnP_nil, List.mem_singleton] at hl
    subst hl
    intro x hx
    simp at hx
  | cons a t ih =>
    intro l hl
    rw [List.splitOnP_cons] at hl
    by_cases hpa : p a
    · rw [if_pos hpa] at hl
      rcases List.mem_cons.mp hl with h1 | h1
      · subst h1
        intro x hx
        simp at hx
      · exact ih l h1
    · rw [if_neg hpa] at hl
      rcases he : t.splitOnP p with _ | ⟨h0, t0⟩
      · exact absurd he (List.splitOnP_ne_nil p t)
      · rw [he, List.modifyHead_cons] at hl
        rcases List.mem_cons.mp hl with h1 | h1
        · subst h1
          intro x hx
          rcases List.mem_cons.mp hx with h2 | h2
          · subst h2
            exact hpa
          · exact ih h0 (he ▸ List.mem_cons_self h0 t0) x h2
        · exact ih l (he ▸ List.mem_cons_of_mem h0 h1)

theorem not_mem_of_mem_splitOn {c : Char} {s l : List Char}
    (hl : l ∈ s.splitOn c) : c ∉ l := by
  intro hc
  have := splitOnP_parts (fun x => x == c) s l hl c hc
  simp at this

theorem intercalate_cons_of_ne_nil {c : Char} {ls : List (List Char)}
    (a : List Char) (h : ls ≠ []) :
    [c].intercalate (a :: ls) = a ++ c :: [c].intercalate ls := by
  cases ls with
  | nil => exact absurd rfl h
  | cons b t => simp [List.intercalate, List.intersperse]

theorem intercalate_append_single {c : Char} {ps : List (List Char)}
    (q : List Char) (h : ps ≠ []) :
    [c].intercalate (ps ++ [q]) = [c].intercalate ps ++ c :: q := by
  induction ps with
  | nil => exact absurd rfl h
  | cons a t ih =>
    cases t with
    | nil => simp [List.intercalate, List.intersperse]
    | cons b u =>
      rw [List.cons_append, intercalate_cons_of_ne_nil a (by simp),
        intercalate_cons_of_ne_nil a (by simp), ih (by simp)]
      simp

/-! ## Helper lemmas about the instance dictionary -/

theorem lookup_update_self (d : List (List Char × PyValue)) (n : List Char)
    (v : PyValue) :
    lookupAssoc (updateAssoc d n v) n = some v := by
  induction d with
  | nil => simp [updateAssoc, lookupAssoc]
  | cons p rest ih =>
    by_cases h : p.1 = n
    · simp [updateAssoc, lookupAssoc, h]
    · simp [updateAssoc, lookupAssoc, h, ih]

theorem lookup_update_ne (d : List (List Char × PyValue)) {m n : List Char}
    (v : PyValue) (h : m ≠ n) :
    lookupAssoc (updateAssoc d m v) n = lookupAssoc d n := by
  have h2 : n ≠ m := fun e => h e.symm
  induction d with
  | nil => simp [updateAssoc, lookupAssoc, h]
  | cons p rest ih =>
    by_cases hp : p.1 = m
    · simp [updateAssoc, lookupAssoc, hp, h]
    · by_cases hn : p.1 = n
      · simp [updateAssoc, lookupAssoc, hp, hn, h2]
      · simp [updateAssoc, lookupAssoc, hp, hn, ih]

/-! ## Filename-grammar lemmas -/

theorem not_mem_append_cons {x sep : Char} {s t : List Char}
    (hs : x ∉ s) (ht : x ∉ t) (hne : x ≠ sep) : x ∉ s ++ sep :: t := by
  intro hm
  rcases List.mem_append.mp hm with h1 | h1
  · exact hs h1
  · rcases List.mem_cons.mp h1 with h2 | h2
    · exact hne h2
    · exact ht h2

/-- On a filename that splits on `_` into three or more parts, the code's
`user_notes` rule yields the middle parts rejoined by `_`. -/
theorem userNotes_general (name : List Char)
    (h : 3 ≤ (name.splitOn '_').length) :
    userNotesOfName name =
      some ([('_' : Char)].intercalate (((name.splitOn '_').drop 1).dropLast)) := by
  rcases hp : name.splitOn '_' with _ | ⟨p0, tail⟩
  · exact absurd hp (List.splitOnP_ne_nil _ _)
  · have htl : 2 ≤ tail.length := by
      have h2 := h
      rw [hp] at h2
      simp only [List.length_cons] at h2
      omega
    have htail_ne : tail ≠ [] := by
      intro e
      rw [e] at htl
      simp at htl
    obtain ⟨init, plast, htail⟩ : ∃ i pl, tail = i ++ [pl] := by
      rcases List.eq_nil_or_concat tail with he | ⟨L, b, he⟩
      · exact absurd he htail_ne
      · exact ⟨L, b, by simpa [List.concat_eq_append] using he⟩
    have hinit_ne : init ≠ [] := by
      intro e
      rw [htail, e] at htl
      simp at htl
    have hp0 : ('_' : Char) ∉ p0 :=
      not_mem_of_mem_splitOn (hp ▸ List.mem_cons_self _ _)
    have hplast : ('_' : Char) ∉ plast := by
      refine not_mem_of_mem_splitOn (s := name) ?_
      rw [hp, htail]
      exact List.mem_cons_of_mem _ (List.mem_append_right _ (List.mem_singleton.mpr rfl))
    have hname : name = [('_' : Char)].intercalate (p0 :: tail) := by
      conv_lhs => rw [← List.intercalate_splitOn name '_']
      rw [hp]
    have hname2 : name = p0 ++ '_' :: [('_' : Char)].intercalate tail := by
      rw [hname, intercalate_cons_of_ne_nil p0 htail_ne]
    have hrest : [('_' : Char)].intercalate tail =
        [('_' : Char)].intercalate init ++ '_' :: plast := by
      rw [htail, intercalate_append_single plast hinit_ne]
    have hsplit1 : pySplit1 '_' name = [p0, [('_' : Char)].intercalate tail] := by
      conv_lhs => rw [hname2]
      exact pySplit1_decomp _ hp0
    have hrsplit : pyRSplit1 '_' ([('_' : Char)].intercalate tail) =
        [[('_' : Char)].intercalate init, plast] := by
      rw [hrest]
      exact pyRSplit1_decomp _ hplast
    rw [userNotesOfName, if_neg (by omega)]
    rw [hsplit1, List.getD_cons_succ, List.getD_cons_zero, hrsplit,
      List.getD_cons_zero]
    simp only [hp, htail, List.drop_succ_cons, List.drop_zero, List.dropLast_concat]

/-- On a filename of shape `pfx ++ "_" ++ rest` with `_`-free `pfx`, the
code's `prefix` rule yields `pfx`. -/
theorem pfx_shape {pfx rest : List Char} (h : ('_' : Char) ∉ pfx) :
    pfxOfName (pfx ++ '_' :: rest) = some pfx := by
  rw [pfxOfName, pySplit1_decomp rest h]
  simp

/-- On a four-token filename the `user_notes` rule keeps the two middle
tokens joined by the embedded underscore. -/
theorem userNotes_shape4 {pfx a b idext : List Char}
    (hpfx : ('_' : Char) ∉ pfx) (ha : ('_' : Char) ∉ a) (hb : ('_' : Char) ∉ b)
    (hid : ('_' : Char) ∉ idext) :
    userNotesOfName (pfx ++ '_' :: (a ++ '_' :: (b ++ '_' :: idext))) =
      some (a ++ '_' :: b) := by
  have hsp : (pfx ++ '_' :: (a ++ '_' :: (b ++ '_' :: idext))).splitOn '_' =
      pfx :: a :: b :: [idext] := by
    rw [splitOn_append_cons _ hpfx, splitOn_append_cons _ ha,
      splitOn_append_cons _ hb, splitOn_not_mem hid]
  have hassoc : a ++ '_' :: (b ++ '_' :: idext) = (a ++ '_' :: b) ++ '_' :: idext := by
    simp
  rw [userNotesOfName, if_neg (by rw [hsp]; simp)]
  rw [pySplit1_decomp _ hpfx, List.getD_cons_succ, List.getD_cons_zero]
  rw [hassoc, pyRSplit1_decomp _ hid, List.getD_cons_zero]

theorem extOfName_shape {s ext : List Char} (h : ('.' : Char) ∉ ext) :
    extOfName (s ++ '.' :: ext) = some ext := by
  rw [extOfName, pyRSplit1_decomp s h]
  simp

theorem extOfName_no_dot {name : List Char} (h : ('.' : Char) ∉ name) :
    extOfName name = Option.none := by
  rw [extOfName, pyRSplit1_not_mem h]
  simp

theorem pyStem_shape {s ext : List Char} (hs : s ≠ []) (hext : ext ≠ [])
    (h : ('.' : Char) ∉ ext) :
    pyStem (s ++ '.' :: ext) = s := by
  have hmem : ('.' : Char) ∈ s ++ '.' :: ext :=
    List.mem_append_right _ (List.mem_cons_self _ _)
  rw [pyStem, if_pos hmem, beforeLast_decomp s h, afterLast_decomp s h,
    if_neg (by simp [hs, hext])]

theorem pfx_no_underscore {name : List Char} (h : ('_' : Char) ∉ name) :
    pfxOfName name = Option.none := by
  rw [pfxOfName, pySplit1_not_mem h]
  simp

theorem userNotes_no_underscore {name : List Char} (h : ('_' : Char) ∉ name) :
    userNotesOfName name = Option.none := by
  rw [userNotesOfName, if_pos (by rw [splitOn_not_mem h]; simp)]

theorem userNotes_shape2 {pfx rest : List Char} (hpfx : ('_' : Char) ∉ pfx)
    (hrest : ('_' : Char) ∉ rest) :
    userNotesOfName (pfx ++ '_' :: rest) = Option.none := by
  rw [userNotesOfName,
    if_pos (by rw [splitOn_append_cons _ hpfx, splitOn_not_mem hrest]; simp)]

/-! ## Pose lemmas -/

theorem kget_pos_x (k : PoseKwargs) : k.get "pos_x".toList = k.pos_x := rfl

theorem kget_pos_y (k : PoseKwargs) : k.get "pos_y".toList = k.pos_y := rfl

theorem kget_pos_z (k : PoseKwargs) : k.get "pos_z".toList = k.pos_z := rfl

theorem kget_quat_w (k : PoseKwargs) : k.get "quat_w".toList = k.quat_w := rfl

theorem kget_quat_x (k : PoseKwargs) : k.get "quat_x".toList = k.quat_x := rfl

theorem kget_quat_y (k : PoseKwargs) : k.get "quat_y".toList = k.quat_y := rfl

theorem kget_quat_z (k : PoseKwargs) : k.get "quat_z".toList = k.quat_z := rfl

theorem posOnly_all (k : PoseKwargs) :
    PoseComponents.POS_ONLY.all (fun x => k.mem x) = hasAllPos k := by
  simp only [PoseComponents.POS_ONLY, List.map, List.all_cons, List.all_nil,
    PoseKwargs.mem, kget_pos_x, kget_pos_y, kget_pos_z, hasAllPos, Bool.and_true]
  cases k.pos_x.isSome <;> cases k.pos_y.isSome <;> cases k.pos_z.isSome <;> rfl

theorem rotOnly_all (k : PoseKwargs) :
    PoseComponents.ROT_ONLY.all (fun x => k.mem x) = hasAllRot k := by
  simp only [PoseComponents.ROT_ONLY, List.map, List.all_cons, List.all_nil,
    PoseKwargs.mem, kget_quat_w, kget_quat_x, kget_quat_y, kget_quat_z, hasAllRot,
    Bool.and_true]
  cases k.quat_w.isSome <;> cases k.quat_x.isSome <;> cases k.quat_y.isSome <;>
    cases k.quat_z.isSome <;> rfl

theorem full_all (k : PoseKwargs) :
    PoseComponents.FULL.all (fun x => k.mem x) = (hasAllPos k && hasAllRot k) := by
  rw [PoseComponents.FULL, List.all_append, posOnly_all, rotOnly_all]

theorem set_pose_snd (f : RoboFrame) (k : PoseKwargs) :
    (f.set_pose k).2 = (hasAllPos k || hasAllRot k) := by
  rw [RoboFrame.set_pose]
  simp only [full_all, posOnly_all, rotOnly_all]
  cases hP : hasAllPos k <;> cases hR : hasAllRot k <;> simp

theorem set_pose_fail (f : RoboFrame) (k : PoseKwargs)
    (hP : hasAllPos k = false) (hR : hasAllRot k = false) :
    f.set_pose k = (f, false) := by
  rw [RoboFrame.set_pose]
  simp only [full_all, posOnly_all, rotOnly_all, hP, hR]
  simp

theorem ratSqrt_four : ratSqrt 4 = 2 := by
  rw [ratSqrt]
  norm_num
  rw [show Int.toNat 4 = 2 * 2 from rfl, Nat.sqrt_eq]
  norm_num

/-- Round trip of the conversion pair on the quaternion `(0, 1, 0, 0)`
(a half-turn about the x axis, whose rotation matrix is `diag(1, -1, -1)`). -/
theorem r2q_q2r_flip : r2q (q2r ⟨0, 1, 0, 0⟩) = ⟨0, 1, 0, 0⟩ := by
  rw [q2r]
  norm_num
  rw [r2q]
  norm_num [ratSqrt_four]

theorem r2q_id : r2q mat3Id = ⟨1, 0, 0, 0⟩ := by
  rw [r2q, mat3Id]
  norm_num [ratSqrt_four]

theorem get_pose_data_setattr (f : RoboFrame) (T : SE3) :
    (f.setattr "pose".toList (PyValue.se3 T)).get_pose_data =
      some ⟨T.trans.x, T.trans.y, T.trans.z, (r2q T.rot).w, (r2q T.rot).x,
        (r2q T.rot).y, (r2q T.rot).z⟩ := by
  simp [RoboFrame.get_pose_data, RoboFrame.setattr, lookup_update_self]

/-! ## Frame-operation lemmas -/

theorem foldl_setattr_lookup (l : List (List Char × PyValue)) (f : RoboFrame)
    (n : List Char) (h : ∀ pr ∈ l, pyLower pr.1 ≠ n) :
    lookupAssoc ((l.foldl (fun g p => g.setattr (pyLower p.1) p.2) f).dict) n =
      lookupAssoc f.dict n := by
  induction l generalizing f with
  | nil => rfl
  | cons p t ih =>
    rw [List.foldl_cons, ih _ (fun q hq => h q (List.mem_cons_of_mem p hq))]
    exact lookup_update_ne f.dict p.2 (h p (List.mem_cons_self p t))

theorem applyOp_frame_id (f : RoboFrame) (op : FrameOp)
    (h : avoidsFrameId op = true) :
    lookupAssoc ((applyOp f op).dict) "frame_id".toList =
      lookupAssoc f.dict "frame_id".toList := by
  cases op with
  | addData fld v =>
    simp only [applyOp, RoboFrame.add_data]
    by_cases hlen : (normFields fld).length ≠ (normValues v).length
    · rw [if_pos hlen]
    · rw [if_neg hlen]
      apply foldl_setattr_lookup
      intro pr hpr he
      simp only [avoidsFrameId, decide_eq_true_eq] at h
      exact h (he ▸ List.mem_map_of_mem pyLower (List.of_mem_zip hpr).1)
  | hasField s => rfl
  | setPose k =>
    simp only [applyOp, RoboFrame.set_pose]
    split_ifs <;>
      first
        | rfl
        | exact lookup_update_ne f.dict _ (by decide)
  | getPoseData => rfl
  | read => rfl

theorem foldl_ops_frame_id (ops : List FrameOp) (f : RoboFrame)
    (h : ∀ op ∈ ops, avoidsFrameId op = true) :
    lookupAssoc ((ops.foldl applyOp f).dict) "frame_id".toList =
      lookupAssoc f.dict "frame_id".toList := by
  induction ops generalizing f with
  | nil => rfl
  | cons op t ih =>
    rw [List.foldl_cons, ih (applyOp f op) (fun o ho => h o (List.mem_cons_of_mem _ ho)),
      applyOp_frame_id f op (h op (List.mem_cons_self _ _))]

/-! ## The claims -/

/-- Claim C1: for every path whose filename component splits on `_` into
three or more parts, the file-backed frame's `user_notes` is the filename
with the segment before the first `_` dropped and everything from the last
`_` onward dropped (the middle parts rejoined by `_`); in particular, for
every filename of shape `pfx_a_b_id.ext` with nonempty, underscore-free,
dot-free tokens (the dot only before `ext`), the frame's prefix is `pfx` and
`user_notes` is `a_b` with the embedded underscore preserved. -/
theorem claim_C1 :
    (∀ (fid : Int) (p : List Char),
        3 ≤ ((pathName p).splitOn '_').length →
        (RoboFrameFile.init fid p).user_notes =
          some ([('_' : Char)].intercalate
            ((((pathName p).splitOn '_').drop 1).dropLast))) ∧
    (∀ (fid : Int) (p pfx a b idtok ext : List Char),
        pfx ≠ [] → a ≠ [] → b ≠ [] → idtok ≠ [] → ext ≠ [] →
        ('_' : Char) ∉ pfx → ('_' : Char) ∉ a → ('_' : Char) ∉ b →
        ('_' : Char) ∉ idtok → ('_' : Char) ∉ ext →
        ('.' : Char) ∉ pfx → ('.' : Char) ∉ a → ('.' : Char) ∉ b →
        ('.' : Char) ∉ idtok → ('.' : Char) ∉ ext →
        pathName p = pfx ++ '_' :: (a ++ '_' :: (b ++ '_' :: (idtok ++ '.' :: ext))) →
        (RoboFrameFile.init fid p).pfx = some pfx ∧
        (RoboFrameFile.init fid p).user_notes = some (a ++ '_' :: b)) := by
  constructor
  · intro fid p h
    exact userNotes_general (pathName p) h
  · intro fid p pfx a b idtok ext hp1 ha1 hb1 hi1 he1 hpu hau hbu hiu heu hpd had
      hbd hid hed hname
    have hidext : ('_' : Char) ∉ idtok ++ '.' :: ext :=
      not_mem_append_cons hiu heu (by decide)
    constructor
    · show pfxOfName (pathName p) = some pfx
      rw [hname]
      exact pfx_shape hpu
    · show userNotesOfName (pathName p) = some (a ++ '_' :: b)
      rw [hname]
      exact userNotes_shape4 hpu hau hbu hidext

/-- Witness for claim C1 at the concrete path
`/data/frame_user_notes_001.png`: the filename has four underscore parts and
`user_notes` is `user_notes`. -/
theorem claim_C1_witness :
    (3 ≤ ((pathName "/data/frame_user_notes_001.png".toList).splitOn '_').length) ∧
    (RoboFrameFile.init 1 "/data/frame_user_notes_001.png".toList).user_notes =
      some "user_notes".toList := by
  constructor
  · decide
  · have h := claim_C1.1 1 "/data/frame_user_notes_001.png".toList (by decide)
    rw [h]
    decide

/-- Claim C2: for every filename of shape `id.ext` (underscore-free, with the
single shown dot), prefix and user notes are absent, the extension is `ext`
and the filestem is `id`; for every filename of shape `pfx_id.ext` with
exactly one underscore, the prefix is `pfx` and user notes are absent. -/
theorem claim_C2 :
    (∀ (fid : Int) (p idtok ext : List Char),
        idtok ≠ [] → ext ≠ [] →
        ('.' : Char) ∉ idtok → ('.' : Char) ∉ ext →
        ('_' : Char) ∉ idtok → ('_' : Char) ∉ ext →
        pathName p = idtok ++ '.' :: ext →
        (RoboFrameFile.init fid p).pfx = Option.none ∧
        (RoboFrameFile.init fid p).user_notes = Option.none ∧
        (RoboFrameFile.init fid p).extension = some ext ∧
        (RoboFrameFile.init fid p).filestem = idtok) ∧
    (∀ (fid : Int) (p pfx idtok ext : List Char),
        ('_' : Char) ∉ pfx → ('_' : Char) ∉ idtok → ('_' : Char) ∉ ext →
        pathName p = pfx ++ '_' :: (idtok ++ '.' :: ext) →
        (RoboFrameFile.init fid p).pfx = some pfx ∧
        (RoboFrameFile.init fid p).user_notes = Option.none) := by
  constructor
  · intro fid p idtok ext hi1 he1 hid hed hiu heu hname
    have hund : ('_' : Char) ∉ idtok ++ '.' :: ext :=
      not_mem_append_cons hiu heu (by decide)
    refine ⟨?_, ?_, ?_, ?_⟩
    · show pfxOfName (pathName p) = Option.none
      rw [hname]
      exact pfx_no_underscore hund
    · show userNotesOfName (pathName p) = Option.none
      rw [hname]
      exact userNotes_no_underscore hund
    · show extOfName (pathName p) = some ext
      rw [hname]
      exact extOfName_shape hed
    · show pyStem (pathName p) = idtok
      rw [hname]
      exact pyStem_shape hi1 he1 hed
  · intro fid p pfx idtok ext hpu hiu heu hname
    have hund : ('_' : Char) ∉ idtok ++ '.' :: ext :=
      not_mem_append_cons hiu heu (by decide)
    constructor
    · show pfxOfName (pathName p) = some pfx
      rw [hname]
      exact pfx_shape hpu
    · show userNotesOfName (pathName p) = Option.none
      rw [hname]
      exact userNotes_shape2 hpu hund

/-- Witness for claim C2 at the concrete path `/path/to/file/001.png`. -/
theorem claim_C2_witness :
    (pathName "/path/to/file/001.png".toList = "001".toList ++ '.' :: "png".toList) ∧
    (RoboFrameFile.init 1 "/path/to/file/001.png".toList).pfx = Option.none ∧
    (RoboFrameFile.init 1 "/path/to/file/001.png".toList).user_notes = Option.none ∧
    (RoboFrameFile.init 1 "/path/to/file/001.png".toList).extension =
      some "png".toList ∧
    (RoboFrameFile.init 1 "/path/to/file/001.png".toList).filestem = "001".toList := by
  refine ⟨by decide, ?_⟩
  exact claim_C2.1 1 "/path/to/file/001.png".toList "001".toList "png".toList
    (by decide) (by decide) (by decide) (by decide) (by decide) (by decide) (by decide)

/-- Claim C3 (amended): `set_pose` returns true exactly when all three
translation components are present or all four quaternion components are
present — the branch guards check presence, not exclusivity, so extra
recognized components are permitted and ignored; when neither full group is
present it returns false and leaves the frame, hence any existing pose,
unchanged. -/
theorem claim_C3 (f : RoboFrame) (k : PoseKwargs) :
    ((f.set_pose k).2 = true ↔ (hasAllPos k = true ∨ hasAllRot k = true)) ∧
    ((hasAllPos k = false ∧ hasAllRot k = false) → f.set_pose k = (f, false)) := by
  constructor
  · rw [set_pose_snd]
    cases hP : hasAllPos k <;> cases hR : hasAllRot k <;> simp
  · intro ⟨hP, hR⟩
    exact set_pose_fail f k hP hR

/-- Witness for claim C3: with no components given, `set_pose` on a fresh
frame returns false and leaves the frame unchanged. -/
theorem claim_C3_witness :
    (hasAllPos kwargsEmpty = false ∧ hasAllRot kwargsEmpty = false) ∧
    (RoboFrame.init 1 PyValue.none PyValue.none).set_pose kwargsEmpty =
      (RoboFrame.init 1 PyValue.none PyValue.none, false) :=
  ⟨⟨rfl, rfl⟩,
   (claim_C3 (RoboFrame.init 1 PyValue.none PyValue.none) kwargsEmpty).2 ⟨rfl, rfl⟩⟩

/-- Counterexample to claim C3 as stated: the input with the three
translation components plus only `quat_w` is none of the three named subsets
(all seven, exactly the translation triple, exactly the quaternion
quadruple), yet `set_pose` returns true. -/
theorem claim_C3_counterexample :
    ((RoboFrame.init 1 PyValue.none PyValue.none).set_pose kwargsCE).2 = true ∧
    exactlyFull kwargsCE = false ∧ exactlyPosOnly kwargsCE = false ∧
    exactlyRotOnly kwargsCE = false := by
  refine ⟨?_, rfl, rfl, rfl⟩
  decide

/-- Claim C4: after `set_pose` with the seven components
`(1, 2, 3, 0, 1, 0, 0)`, `get_pose_data` reproduces exactly those seven
values; after `set_pose` with only `pos_x=1, pos_y=2, pos_z=3`,
`get_pose_data` reports that translation with the identity quaternion
`(1, 0, 0, 0)` — on any starting frame. -/
theorem claim_C4 (f : RoboFrame) :
    ((f.set_pose kwargsFull).2 = true ∧
     ((f.set_pose kwargsFull).1).get_pose_data = some ⟨1, 2, 3, 0, 1, 0, 0⟩) ∧
    ((f.set_pose kwargsPos).2 = true ∧
     ((f.set_pose kwargsPos).1).get_pose_data = some ⟨1, 2, 3, 1, 0, 0, 0⟩) := by
  have hfull : f.set_pose kwargsFull =
      (f.setattr "pose".toList (PyValue.se3 ⟨q2r ⟨0, 1, 0, 0⟩, ⟨1, 2, 3⟩⟩), true) := rfl
  have hpos : f.set_pose kwargsPos =
      (f.setattr "pose".toList (PyValue.se3 (se3FromTrans 1 2 3)), true) := rfl
  refine ⟨⟨by rw [hfull], ?_⟩, by rw [hpos], ?_⟩
  · rw [hfull]
    rw [get_pose_data_setattr]
    simp [r2q_q2r_flip]
  · rw [hpos]
    rw [get_pose_data_setattr]
    simp [se3FromTrans, r2q_id]

/-- Claim C5: whenever the normalized field and value counts differ,
`add_data` fails with `ValueError`; in particular for fields `["a", "b"]`
and values `[1]`. -/
theorem claim_C5 :
    (∀ (f : RoboFrame) (field : FieldArg) (value : ValueArg),
        (normFields field).length ≠ (normValues value).length →
        f.add_data field value = Except.error PyError.valueError) ∧
    (RoboFrame.init 1 PyValue.none PyValue.none).add_data
        (FieldArg.many ["a".toList, "b".toList]) (ValueArg.many [PyValue.int 1]) =
      Except.error PyError.valueError := by
  constructor
  · intro f field value h
    rw [RoboFrame.add_data]
    simp [h]
  · rfl

/-- Witness for claim C5 at the concrete mismatched call
`add_data(["a", "b"], [1])`. -/
theorem claim_C5_witness :
    (normFields (FieldArg.many ["a".toList, "b".toList])).length ≠
        (normValues (ValueArg.many [PyValue.int 1])).length ∧
    (RoboFrame.init 2 PyValue.none PyValue.none).add_data
        (FieldArg.many ["a".toList, "b".toList]) (ValueArg.many [PyValue.int 1]) =
      Except.error PyError.valueError :=
  ⟨by decide, claim_C5.1 _ _ _ (by decide)⟩

/-- Claim C6: `add_data(name, v)` succeeds and stores `v` under the
lowercased name; `has_field` lowercases its argument before checking; on a
fresh frame, after `add_data("a", 1)`, `has_field("a")` and `has_field("A")`
are true and `has_field("b")` is false. -/
theorem claim_C6 :
    (∀ (f : RoboFrame) (name : List Char) (v : PyValue),
        ∃ g, f.add_data (FieldArg.one name) (ValueArg.scalar v) = Except.ok g ∧
          lookupAssoc g.dict (pyLower name) = some v) ∧
    (∀ (f : RoboFrame) (s : List Char), f.has_field s = f.hasattr (pyLower s)) ∧
    ((RoboFrame.init 1 PyValue.none PyValue.none).add_data (FieldArg.one "a".toList)
        (ValueArg.scalar (PyValue.int 1))).map
      (fun g => (g.has_field "a".toList, g.has_field "A".toList,
        g.has_field "b".toList)) = Except.ok (true, true, false) := by
  refine ⟨?_, fun f s => rfl, rfl⟩
  intro f name v
  exact ⟨f.setattr (pyLower name) v, rfl, lookup_update_self f.dict (pyLower name) v⟩

/-- Claim C7 (amended): a frame constructed with identifier `n` still has
`frame_id = n` after any sequence of `add_data`, `has_field`, `set_pose`,
`get_pose_data` and `read` operations, provided no `add_data` call passes a
field name that lowercases to `frame_id` (such a call overwrites the
attribute via `setattr`). -/
theorem claim_C7 (n : Int) (ts pose : PyValue) (ops : List FrameOp)
    (h : ∀ op ∈ ops, avoidsFrameId op = true) :
    lookupAssoc ((ops.foldl applyOp (RoboFrame.init n ts pose)).dict)
      "frame_id".toList = some (PyValue.int n) := by
  rw [foldl_ops_frame_id ops _ h]
  rfl

/-- Witness for claim C7: a concrete two-operation sequence that avoids the
name `frame_id` preserves the identifier `5`. -/
theorem claim_C7_witness :
    (∀ op ∈ [FrameOp.addData (FieldArg.one "a".toList)
        (ValueArg.scalar (PyValue.int 7)), FrameOp.getPoseData],
      avoidsFrameId op = true) ∧
    lookupAssoc (([FrameOp.addData (FieldArg.one "a".toList)
        (ValueArg.scalar (PyValue.int 7)), FrameOp.getPoseData].foldl applyOp
        (RoboFrame.init 5 PyValue.none PyValue.none)).dict) "frame_id".toList =
      some (PyValue.int 5) :=
  ⟨by decide, claim_C7 5 PyValue.none PyValue.none _ (by decide)⟩

/-- Counterexample to claim C7 as stated: on a frame constructed with
identifier 1, the single operation `add_data("frame_id", 2)` changes
`frame_id` to 2, so the identifier is not immutable under every sequence of
the listed operations. -/
theorem claim_C7_counterexample :
    lookupAssoc ((applyOp (RoboFrame.init 1 PyValue.none PyValue.none)
        (FrameOp.addData (FieldArg.one "frame_id".toList)
          (ValueArg.scalar (PyValue.int 2)))).dict) "frame_id".toList =
      some (PyValue.int 2) ∧
    some (PyValue.int 2) ≠ some (PyValue.int 1) := by
  constructor
  · decide
  · decide

/-- Claim C8: the classifier maps exactly the fixed case-sensitive extension
sets to IMAGE, POINTCLOUD and CSVDATA, and every other extension — absent
extensions and case variants such as `PNG` included — to UNKNOWN. -/
theorem claim_C8 :
    (∀ e ∈ (["bmp", "pbm", "pgm", "ppm", "jpeg", "jpg", "jpe", "jp2", "tiff", "tif",
        "png"]).map String.toList,
      frametype_from_extension (some e) = FrameType.IMAGE) ∧
    (∀ e ∈ (["ply", "pcd"]).map String.toList,
      frametype_from_extension (some e) = FrameType.POINTCLOUD) ∧
    (∀ e ∈ (["csv"]).map String.toList,
      frametype_from_extension (some e) = FrameType.CSVDATA) ∧
    (∀ e : List Char, e ∉ supported_image_types → e ∉ supported_pointcloud_types →
      e ∉ supported_csv_types → frametype_from_extension (some e) = FrameType.UNKNOWN) ∧
    frametype_from_extension Option.none = FrameType.UNKNOWN := by
  refine ⟨by decide, by decide, by decide, ?_, rfl⟩
  intro e h1 h2 h3
  rw [frametype_from_extension]
  simp [pyIn, h1, h2, h3]

/-- Witness for claim C8: the uppercase variant `PNG` is in none of the
extension tables and classifies as UNKNOWN. -/
theorem claim_C8_witness :
    "PNG".toList ∉ supported_image_types ∧
    "PNG".toList ∉ supported_pointcloud_types ∧
    "PNG".toList ∉ supported_csv_types ∧
    frametype_from_extension (some "PNG".toList) = FrameType.UNKNOWN :=
  ⟨by decide, by decide, by decide,
   claim_C8.2.2.2.1 "PNG".toList (by decide) (by decide) (by decide)⟩

/-- Claim C9: classifying a path equals classifying the extension extracted
from the filename component alone — two paths with the same filename
component classify identically, so a dot appearing only in a directory
segment never contributes — and a path whose filename has no dot yields an
absent extension and classifies as UNKNOWN. -/
theorem claim_C9 :
    (∀ path : List Char,
      frametype_from_filepath path =
        frametype_from_extension (extOfName (pathName path))) ∧
    (∀ p q : List Char, pathName p = pathName q →
      frametype_from_filepath p = frametype_from_filepath q) ∧
    (∀ path : List Char, ('.' : Char) ∉ pathName path →
      extension_from_filepath path = Option.none ∧
      frametype_from_filepath path = FrameType.UNKNOWN) := by
  refine ⟨fun path => rfl, ?_, ?_⟩
  · intro p q h
    rw [frametype_from_filepath, extension_from_filepath, h]
    rfl
  · intro path h
    have he : extension_from_filepath path = Option.none := extOfName_no_dot h
    exact ⟨he, by rw [frametype_from_filepath, he]; rfl⟩

/-- Witness for claim C9: `a.b/001.png` and `x/y/001.png` share the filename
component and classify identically, and `some.dir/readme` (a dot only in the
directory segment) has no extension and is UNKNOWN. -/
theorem claim_C9_witness :
    (pathName "a.b/001.png".toList = pathName "x/y/001.png".toList ∧
      frametype_from_filepath "a.b/001.png".toList =
        frametype_from_filepath "x/y/001.png".toList) ∧
    (('.' : Char) ∉ pathName "some.dir/readme".toList ∧
      extension_from_filepath "some.dir/readme".toList = Option.none ∧
      frametype_from_filepath "some.dir/readme".toList = FrameType.UNKNOWN) := by
  refine ⟨⟨by decide, claim_C9.2.1 _ _ (by decide)⟩, by decide, ?_, ?_⟩
  · exact (claim_C9.2.2 "some.dir/readme".toList (by decide)).1
  · exact (claim_C9.2.2 "some.dir/readme".toList (by decide)).2

/-- Claim C10: on a freshly constructed frame with no `add_data` calls,
`has_field` is true for the constructor-set attribute names `frame_id`,
`timestamp` and `pose`, and even for the method name `add_data`, because
field existence is attribute existence on the object. -/
theorem claim_C10 :
    (RoboFrame.init 1 PyValue.none PyValue.none).has_field "frame_id".toList = true ∧
    (RoboFrame.init 1 PyValue.none PyValue.none).has_field "timestamp".toList = true ∧
    (RoboFrame.init 1 PyValue.none PyValue.none).has_field "pose".toList = true ∧
    (RoboFrame.init 1 PyValue.none PyValue.none).has_field "add_data".toList = true := by
  decide
